import Mathlib

/-!
Shallow embedding of the retrieval / rerank / fusion / ingestion core of the
`allpassagent` repository, together with proofs settling the frozen claims
about it.  Every definition is translated from the TypeScript source:

* `src/lib/reranker.ts` (src/unnamed/part_006): `rerankWithBGE`,
  `rerankBySimilarity` and its last-resort catch branch;
* `src/app/api/chat/route.ts`: the similarity-floor filter, the source
  fusion (`uniqueSources` / `allSources`) and the streaming response body;
* `src/lib/file-queue.ts` (src/unnamed/part_008): `retryFailedTask`;
* `src/workers/file-processor.ts`: the character-window `chunkText`, and the
  document-status writes performed by the catch blocks of `processFile`,
  `processEmbedding`, `processVectorStorage`;
* `src/lib/document-parser.ts`: the page-aware `chunkText`;
* `src/lib/recommendation-engine.ts`: `generateRecommendations` and its
  helper pipeline.

JavaScript strings are modelled as Lean `String`s (`.length` counts code
points; the sources under test only hit BMP characters, where this agrees
with UTF-16 code-unit counts).  JavaScript numbers are modelled as `ℚ`
(every constant in the source is an exactly representable decimal and no
operation leaves the exact range).  External services (Pinecone, the
SiliconFlow rerank / embedding / completion endpoints, MongoDB) are
modelled by explicit parameters carrying their responses.
-/

/-! ### JavaScript string primitives -/

/-- Whitespace test used by JavaScript `trim` and `\s` for the characters the
sources manipulate. -/
def isJsWs (c : Char) : Bool :=
  c == ' ' || c == '\n' || c == '\t' || c == '\r'

/-- Drop leading and trailing JS whitespace from a character list. -/
def jsTrimL (l : List Char) : List Char :=
  ((l.dropWhile isJsWs).reverse.dropWhile isJsWs).reverse

/-- JavaScript `String.prototype.trim`. -/
def jsTrim (s : String) : String :=
  String.mk (jsTrimL s.data)

/-- Worker for `jsSplitMixed`: splits a character list at every maximal run of
`runSep` characters and at every single `oneSep` character, keeping boundary
empty segments exactly as JavaScript `split` does.  `inRun` records whether
the previous character belonged to a `runSep` run. -/
def splitMixedAux (runSep oneSep : Char → Bool) :
    List Char → List Char → Bool → List String
  | [], cur, _ => [String.mk cur.reverse]
  | c :: cs, cur, inRun =>
    if runSep c then
      if inRun then splitMixedAux runSep oneSep cs cur true
      else String.mk cur.reverse :: splitMixedAux runSep oneSep cs [] true
    else if oneSep c then
      String.mk cur.reverse :: splitMixedAux runSep oneSep cs [] false
    else splitMixedAux runSep oneSep cs (c :: cur) false

/-- JavaScript `s.split(re)` for a regular expression of the shape
`/R+|[O]/` where `R` is a character class matched as a maximal run (for
example `\s+` or `[.!?]+`) and `O` is a set of single-character separators.
Either part may be absent (pass a constantly-false predicate). -/
def jsSplitMixed (runSep oneSep : Char → Bool) (s : String) : List String :=
  splitMixedAux runSep oneSep s.data [] false

/-- JavaScript `s.split(/\s+/)`. -/
def jsSplitWs (s : String) : List String :=
  jsSplitMixed isJsWs (fun _ => false) s

/-- JavaScript `s.split(' ')` (single-character string separator). -/
def jsSplitSpace (s : String) : List String :=
  jsSplitMixed (fun _ => false) (· == ' ') s

/-- JavaScript `s.toLowerCase()`, modelled characterwise. -/
def jsToLower (s : String) : String :=
  String.mk (s.data.map Char.toLower)

/-- JavaScript `s.substring(0, n)`. -/
def substrTo (s : String) (n : ℕ) : String :=
  String.mk (s.data.take n)

/-- JavaScript `arr.slice(-k)`.  For `k = 0`, `-0 === 0` so the whole array
is returned; otherwise the last `min k len` elements. -/
def sliceNegJs {α : Type} (l : List α) (k : ℕ) : List α :=
  if k = 0 then l else l.drop (l.length - k)

/-- Number of non-overlapping occurrences of a non-empty pattern, as counted
by JavaScript `content.match(new RegExp(word, 'g'))` for a metacharacter-free
`word` (the regex engine restarts after the end of each match).  `skip` is
the number of still-to-skip characters after a match. -/
def countOccAux (pat : List Char) : List Char → ℕ → ℕ
  | [], _ => 0
  | _ :: cs, skip + 1 => countOccAux pat cs skip
  | c :: cs, 0 =>
    if pat.isPrefixOf (c :: cs) then 1 + countOccAux pat cs (pat.length - 1)
    else countOccAux pat cs 0

/-- Occurrence count of `pat` in `s`, matching JavaScript global regex
matching with a literal pattern: the empty pattern matches at every position
(`s.length + 1` times). -/
def countOcc (pat s : String) : ℕ :=
  match pat.data with
  | [] => s.data.length + 1
  | _ :: _ => countOccAux pat.data s.data 0

/-- JavaScript `s.includes(pat)` (substring containment). -/
def containsSub (s pat : String) : Bool :=
  (List.range (s.data.length + 1)).any fun i => pat.data.isPrefixOf (s.data.drop i)

namespace Reranker

/-- Search match as consumed by `rerankWithBGE` (`src/lib/reranker.ts`,
interface `SearchMatch`). -/
structure SearchMatch where
  content : String
  filename : String
  document_id : String
  page : Option Int
  page_type : String
  score : ℚ
deriving DecidableEq

/-- Rerank result (`src/lib/reranker.ts`, interface `RerankResult`). -/
structure RerankResult where
  content : String
  filename : String
  document_id : String
  page : Option Int
  page_type : String
  score : ℚ
  originalScore : ℚ
  rerankScore : ℚ
deriving DecidableEq

/-- Descending-score comparison used by `sort((a, b) => b.score - a.score)`
on rerank results. -/
def rrLe (a b : RerankResult) : Prop := b.score ≤ a.score

instance : DecidableRel rrLe := fun a b => inferInstanceAs (Decidable (b.score ≤ a.score))

instance : IsTotal RerankResult rrLe := ⟨fun a b => le_total b.score a.score⟩

instance : IsTrans RerankResult rrLe := ⟨fun _ _ _ h h' => le_trans h' h⟩

/-- Lower-cased whitespace-split query words:
`query.toLowerCase().split(/\s+/)` in `rerankBySimilarity`. -/
def queryWords (query : String) : List String :=
  jsSplitWs (jsToLower query)

/-- Keyword match density from `rerankBySimilarity`: total occurrence count
of the query words in the lower-cased content, divided by the number of
query words. -/
def keywordScore (qws : List String) (contentLower : String) : ℚ :=
  ((qws.foldl (fun acc w => acc + countOcc w contentLower) 0 : ℕ) : ℚ) / (qws.length : ℚ)

/-- Per-candidate scoring of the similarity fallback
(`rerankBySimilarity`, body of `matches.map`). -/
def scoreMatch (qws : List String) (m : SearchMatch) : RerankResult :=
  let contentLower := jsToLower m.content
  let kw := keywordScore qws contentLower
  let lengthScore : ℚ := min 1 ((m.content.length : ℚ) / 1000)
  let combined := m.score * 0.5 + kw * 0.3 + lengthScore * 0.2
  { content := m.content, filename := m.filename, document_id := m.document_id
    page := m.page, page_type := m.page_type
    score := combined, originalScore := m.score, rerankScore := combined }

/-- Last-resort catch branch of `rerankBySimilarity`: original candidates
truncated to `topK`, all three score fields set to the input score. -/
def lastResort (ms : List SearchMatch) (topK : ℕ) : List RerankResult :=
  (ms.take topK).map fun m =>
    { content := m.content, filename := m.filename, document_id := m.document_id
      page := m.page, page_type := m.page_type
      score := m.score, originalScore := m.score, rerankScore := m.score }

/-- Fallback reranker `rerankBySimilarity`.  The only throw site of its try
block is `new RegExp(word, 'g')`; `compileOk` is the oracle saying which
query words compile as regular expressions (occurrence counting itself is
modelled for metacharacter-free words, where the regex is a literal
matcher).  When compilation of some word throws — which JavaScript hits as
soon as one candidate is scored — the catch branch returns `lastResort`; on
an empty candidate list both branches agree on `[]`. -/
def rerankBySimilarity (compileOk : String → Bool) (query : String)
    (ms : List SearchMatch) (topK : ℕ) : List RerankResult :=
  let qws := queryWords query
  if qws.all compileOk then
    ((ms.map (scoreMatch qws)).insertionSort rrLe).take topK
  else lastResort ms topK

/-- One entry of the rerank endpoint's response
(`result.results`: `{index, relevance_score}`). -/
structure ApiItem where
  index : ℕ
  relevance_score : ℚ
deriving DecidableEq

/-- Primary-path result assembly from `rerankWithBGE`: for each API item
whose index hits an existing candidate, fuse
`originalScore * 0.3 + relevance_score * 0.7`; `rerankScore` keeps the
JavaScript `item.relevance_score || originalMatch.score` fallback for a
falsy (zero) relevance score. -/
def processApiResults (ms : List SearchMatch) (items : List ApiItem) :
    List RerankResult :=
  items.filterMap fun (item : ApiItem) =>
    (ms[item.index]?).map fun (m : SearchMatch) =>
      { content := m.content, filename := m.filename, document_id := m.document_id
        page := m.page, page_type := m.page_type
        score := m.score * 0.3 + item.relevance_score * 0.7
        originalScore := m.score
        rerankScore := if item.relevance_score = 0 then m.score else item.relevance_score }

/-- Top-level `rerankWithBGE`.  `api = none` models every unavailability
path (missing API key, non-OK HTTP status, thrown fetch), `api = some items`
a delivered response body.  The request asks the endpoint for
`top_k = min(topK, matches.length)` items; the code never truncates locally. -/
def rerankWithBGE (compileOk : String → Bool) (query : String)
    (ms : List SearchMatch) (topK : ℕ) (api : Option (List ApiItem)) :
    List RerankResult :=
  if ms = [] then []
  else
    match api with
    | none => rerankBySimilarity compileOk query ms topK
    | some items =>
      let rr := processApiResults ms items
      if rr = [] then rerankBySimilarity compileOk query ms topK
      else rr.insertionSort rrLe

end Reranker

namespace ChatRoute

/-- Raw Pinecone match as consumed by the chat route's candidate filter
(`src/app/api/chat/route.ts`, `searchResults.matches`).  Only the score
takes part in the filter; a missing score is `none`
(JavaScript `match.score || 0`).  Metadata fields, which the filter never
inspects, are omitted. -/
structure RawMatch where
  score : Option ℚ
deriving DecidableEq

/-- JavaScript `match.score || 0`. -/
def scoreOrZero (m : RawMatch) : ℚ := m.score.getD 0

/-- Similarity-floor filter of the chat route:
`searchResults.matches?.filter(match => (match.score || 0) > 0.6)`. -/
def filterSearchMatches (ms : List RawMatch) : List RawMatch :=
  ms.filter fun m => 0.6 < scoreOrZero m

/-- One entry fed into the `uniqueSources` fusion map.  The code stores a
record with many presentation fields; the fusion logic only reads and
compares `filename` and `score`, which are the fields modelled here. -/
structure SourceItem where
  filename : String
  score : ℚ
deriving DecidableEq

/-- Multimedia boost from the chat route:
`score: result.score * 1.2` in `multimediaContext`. -/
def boostMultimedia (results : List SourceItem) : List SourceItem :=
  results.map fun e => { e with score := e.score * 1.2 }

/-- One `uniqueSources` update step: JavaScript
`if (!uniqueSources.has(filename) || uniqueSources.get(filename).score < ctx.score) uniqueSources.set(filename, ...)`.
A `Map.set` on an existing key replaces the value in place; on a new key it
appends. -/
def upsertSource (acc : List SourceItem) (e : SourceItem) : List SourceItem :=
  match acc.find? (fun x => x.filename == e.filename) with
  | none => acc ++ [e]
  | some old =>
    if old.score < e.score then
      acc.map fun x => if x.filename == e.filename then e else x
    else acc

/-- The `uniqueSources` map after both `forEach` loops: document entries are
inserted first, multimedia entries second, in list order. -/
def dedupeByFilename (entries : List SourceItem) : List SourceItem :=
  entries.foldl upsertSource []

/-- Descending-score comparison used by
`allSources.sort((a, b) => b.score - a.score)`. -/
def srcLe (a b : SourceItem) : Prop := b.score ≤ a.score

instance : DecidableRel srcLe := fun a b => inferInstanceAs (Decidable (b.score ≤ a.score))

instance : IsTotal SourceItem srcLe := ⟨fun a b => le_total b.score a.score⟩

instance : IsTrans SourceItem srcLe := ⟨fun _ _ _ h h' => le_trans h' h⟩

/-- Scores carried by the entries of `l` whose filename is `fn`. -/
def scoresFor (fn : String) (l : List SourceItem) : List ℚ :=
  (l.filter fun x => x.filename == fn).map (·.score)

/-- Full fusion step of the chat route's `final` payload: deduplicate the
document entries followed by the (already boosted) multimedia entries by
filename keeping the higher score, then sort descending by score. -/
def fuseSources (docs mms : List SourceItem) : List SourceItem :=
  (dedupeByFilename (docs ++ mms)).insertionSort srcLe

/-- Invariant of the `uniqueSources` fold: the accumulated map has
pairwise-distinct filenames, exactly the filenames inserted so far, and
stores for each filename a maximal score among those inserted for it. -/
def FuseInv (seen acc : List SourceItem) : Prop :=
  (acc.map (·.filename)).Nodup ∧
  (∀ fn, fn ∈ acc.map (·.filename) ↔ fn ∈ seen.map (·.filename)) ∧
  (∀ e ∈ acc, e.score ∈ scoresFor e.filename seen ∧
    ∀ x ∈ scoresFor e.filename seen, x ≤ e.score)

/-- Events sent over the chat route's server-sent event stream.  `final`'s
payload (sources, recommendations, flags) is reduced to whether it came from
the success path or the catch handler, which is all the termination claim
inspects. -/
inductive StreamEvent
  | content (s : String)
  | final (ok : Bool)
deriving DecidableEq

/-- Test for the terminal event type. -/
def isFinal : StreamEvent → Bool
  | .final _ => true
  | .content _ => false

/-- Behavior of the upstream completion stream, abstracted to the sequence
of delta-content fragments the route's line parser extracts from it:
`ok toks recsFail` is a cleanly terminated stream (`recsFail` says whether
the subsequent recommendation step throws), `err toks` is a stream whose
read throws after yielding `toks`. -/
inductive UpstreamBehavior
  | ok (toks : List String) (recsFail : Bool)
  | err (toks : List String)
deriving DecidableEq

/-- Apology fragment sent by the catch handler of the response stream. -/
def apologyMsg : String := "抱歉，AI服务暂时不可用，请稍后重试。"

/-- Default content sent when the upstream produced no text
(`if (!aiResponse.trim())`). -/
def defaultMsg : String := "你好！我是AI助手，很高兴为您服务。"

/-- Event sequence emitted by the `ReadableStream` body of the chat route
for a given upstream behavior.  Each truthy (non-empty) extracted fragment
is forwarded as a `content` event and appended to `aiResponse`; a cleanly
ended stream with blank accumulated text gets the default content event;
then the `final` event is enqueued.  Any throw (upstream read or
recommendation generation) diverts to the catch handler, which emits the
apology `content` event followed by its own `final` event. -/
def chatStreamEvents : UpstreamBehavior → List StreamEvent
  | .err toks =>
    (toks.filter (· ≠ "")).map StreamEvent.content
      ++ [StreamEvent.content apologyMsg, StreamEvent.final false]
  | .ok toks recsFail =>
    let emitted := (toks.filter (· ≠ "")).map StreamEvent.content
    let aiResponse := String.join (toks.filter (· ≠ ""))
    let withDefault :=
      if jsTrim aiResponse = "" then emitted ++ [StreamEvent.content defaultMsg]
      else emitted
    if recsFail then
      withDefault ++ [StreamEvent.content apologyMsg, StreamEvent.final false]
    else withDefault ++ [StreamEvent.final true]

end ChatRoute

namespace FileQueue

/-- Queue task as handled by `retryFailedTask` in `src/lib/file-queue.ts`:
the generic bound there is `{ retryCount?: number; maxRetries?: number }`
plus an id used only for logging.  Payload fields (blob URL, chunks,
vectors), which the retry logic never reads, are omitted. -/
structure QueueTask where
  id : String
  retryCount : Option ℕ
  maxRetries : Option ℕ
deriving DecidableEq

/-- JavaScript `task.retryCount || 0`. -/
def retryCountOrZero (t : QueueTask) : ℕ := t.retryCount.getD 0

/-- JavaScript `task.maxRetries || 3` (`0` is falsy, so an explicit zero also
falls back to `3`). -/
def maxRetriesOrDefault (t : QueueTask) : ℕ :=
  match t.maxRetries with
  | none => 3
  | some 0 => 3
  | some n => n

/-- The `retryFailedTask` function: bump the retry count; within the bound,
push the bumped task to the queue's tail and report `true`; beyond the bound,
leave the queue untouched and report `false`. -/
def retryFailedTask (queue : List QueueTask) (t : QueueTask) :
    Bool × List QueueTask :=
  let rc := retryCountOrZero t + 1
  let mr := maxRetriesOrDefault t
  if rc ≤ mr then (true, queue ++ [{ t with retryCount := some rc }])
  else (false, queue)

/-- Surviving task after one handler failure: `some` of the bumped task when
`retryFailedTask` re-enqueues it, `none` when it is permanently dropped. -/
def failOnce (t : QueueTask) : Option QueueTask :=
  if retryCountOrZero t + 1 ≤ maxRetriesOrDefault t then
    some { t with retryCount := some (retryCountOrZero t + 1) }
  else none

/-- Surviving task after `n` consecutive handler failures, each followed by
the worker's `retryFailedTask` call (`startWorker` catch blocks in
`src/workers/file-processor.ts`). -/
def afterFailures : ℕ → QueueTask → Option QueueTask
  | 0, t => some t
  | n + 1, t => (afterFailures n t).bind failOnce

/-- Persisted processing status of a knowledge document
(MongoDB `status` field). -/
inductive DocStatus
  | pending
  | processing
  | completed
  | failed
deriving DecidableEq

/-- Status written by the catch block of `processFile`: it sets
`status: 'failed'` on every failure. -/
def statusAfterFileProcessingFailure (_s : DocStatus) : DocStatus :=
  DocStatus.failed

/-- Status after a `processEmbedding` failure: its catch block only logs and
rethrows — no database write happens, so the document keeps its previous
status. -/
def statusAfterEmbeddingFailure (s : DocStatus) : DocStatus := s

/-- Status written by the catch block of `processVectorStorage`: it sets
`status: 'failed'` on every failure. -/
def statusAfterVectorStorageFailure (_s : DocStatus) : DocStatus :=
  DocStatus.failed

/-- Joint evolution of (surviving task, owning document status) across `n`
consecutive failures of an embedding task: each failure applies the
(non-existent) status write of `processEmbedding`'s catch block and then the
worker's retry. -/
def embeddingFailuresRun : ℕ → QueueTask → DocStatus → Option QueueTask × DocStatus
  | 0, t, s => (some t, s)
  | n + 1, t, s =>
    let (surv, s') := embeddingFailuresRun n t s
    (surv.bind failOnce, statusAfterEmbeddingFailure s')

end FileQueue

namespace DocumentParser

/-- Sentence-terminating punctuation class `[.!?]` of the chunker's
sentence split. -/
def isSentPunct (c : Char) : Bool :=
  c == '.' || c == '!' || c == '?'

/-- JavaScript `text.split(/[.!?]+/).filter(s => s.trim().length > 0)`. -/
def splitSentences (text : String) : List String :=
  (jsSplitMixed isSentPunct (fun _ => false) text).filter fun s => jsTrim s ≠ ""

/-- Page record passed to the page-aware chunker
(`src/lib/document-parser.ts`, `pages` parameter). -/
structure PageInfo where
  pageNumber : ℕ
  content : String
  startChar : ℤ
  endChar : ℤ
deriving DecidableEq

/-- Chunk produced by the page-aware chunker (interface `ChunkWithPage`). -/
structure ChunkWithPage where
  content : String
  pageNumber : Option ℕ
  startChar : ℤ
  endChar : ℤ
  chunkIndex : ℕ
deriving DecidableEq

/-- Overlap seed of a freshly emitted chunk: the last `⌊overlap/10⌋` words of
the buffer (`currentChunk.split(' ')` then `slice(-...)`), joined by single
spaces. -/
def overlapSeed (cur : String) (overlap : ℕ) : String :=
  String.intercalate " " (sliceNegJs (jsSplitSpace cur) (overlap / 10))

/-- State of the no-page-information chunking loop:
accumulated chunks, `currentChunk`, `chunkIndex`, `currentPos`. -/
structure NoPagesState where
  chunks : List ChunkWithPage
  cur : String
  idx : ℕ
  pos : ℤ
deriving DecidableEq

/-- One iteration of the no-page-information sentence loop of `chunkText`. -/
def noPagesStep (chunkSize overlap : ℕ) (st : NoPagesState) (sentence : String) :
    NoPagesState :=
  let trimmed := jsTrim sentence
  if chunkSize < st.cur.length + trimmed.length ∧ 0 < st.cur.length then
    let emitted : ChunkWithPage :=
      { content := jsTrim st.cur, pageNumber := none
        startChar := st.pos - st.cur.length, endChar := st.pos - 1
        chunkIndex := st.idx }
    { chunks := st.chunks ++ [emitted]
      cur := overlapSeed st.cur overlap ++ " " ++ trimmed
      idx := st.idx + 1
      pos := st.pos + trimmed.length + 1 }
  else
    { chunks := st.chunks
      cur := if st.cur = "" then trimmed else st.cur ++ " " ++ trimmed
      idx := st.idx
      pos := st.pos + trimmed.length + 1 }

/-- No-page-information branch of `chunkText`: run the sentence loop, then
flush the remaining buffer when its trimmed form is non-empty. -/
def chunkTextNoPages (text : String) (chunkSize overlap : ℕ) :
    List ChunkWithPage :=
  let st := (splitSentences text).foldl (noPagesStep chunkSize overlap)
    { chunks := [], cur := "", idx := 0, pos := 0 }
  if jsTrim st.cur ≠ "" then
    st.chunks ++
      [{ content := jsTrim st.cur, pageNumber := none
         startChar := st.pos - st.cur.length, endChar := st.pos - 1
         chunkIndex := st.idx }]
  else st.chunks

/-- State of the per-page sentence loop: accumulated chunks, `currentChunk`,
`chunkStartChar`, `chunkIndex`. -/
structure PageLoopState where
  chunks : List ChunkWithPage
  cur : String
  startChar : ℤ
  idx : ℕ
deriving DecidableEq

/-- One iteration of the per-page sentence loop (large-page branch of the
page-aware `chunkText`). -/
def pageSentenceStep (chunkSize overlap : ℕ) (page : PageInfo)
    (st : PageLoopState) (sentence : String) : PageLoopState :=
  let trimmed := jsTrim sentence
  if chunkSize < st.cur.length + trimmed.length ∧ 0 < st.cur.length then
    let chunkEndChar := st.startChar + st.cur.length - 1
    let seed := overlapSeed st.cur overlap
    { chunks := st.chunks ++
        [{ content := jsTrim st.cur, pageNumber := some page.pageNumber
           startChar := st.startChar, endChar := chunkEndChar
           chunkIndex := st.idx }]
      cur := seed ++ " " ++ trimmed
      startChar := chunkEndChar - seed.length
      idx := st.idx + 1 }
  else
    { chunks := st.chunks
      cur := if st.cur = "" then trimmed else st.cur ++ " " ++ trimmed
      startChar := st.startChar
      idx := st.idx }

/-- Per-page step of the page-aware branch of `chunkText`: a page fitting in
`chunkSize` becomes one chunk; a larger page is split by the sentence loop
and its remaining buffer flushed with the page's `endChar`. -/
def pageStep (chunkSize overlap : ℕ) (st : List ChunkWithPage × ℕ)
    (page : PageInfo) : List ChunkWithPage × ℕ :=
  if page.content.length ≤ chunkSize then
    (st.1 ++
      [{ content := page.content, pageNumber := some page.pageNumber
         startChar := page.startChar, endChar := page.endChar
         chunkIndex := st.2 }], st.2 + 1)
  else
    let inner := (splitSentences page.content).foldl
      (pageSentenceStep chunkSize overlap page)
      { chunks := st.1, cur := "", startChar := page.startChar, idx := st.2 }
    if jsTrim inner.cur ≠ "" then
      (inner.chunks ++
        [{ content := jsTrim inner.cur, pageNumber := some page.pageNumber
           startChar := inner.startChar, endChar := page.endChar
           chunkIndex := inner.idx }], inner.idx + 1)
    else (inner.chunks, inner.idx)

/-- Page-aware `chunkText` of `src/lib/document-parser.ts` (source defaults:
`chunkSize = 1000`, `overlap = 200`).  With page information present and
non-empty the page branch runs, otherwise the flat sentence branch. -/
def chunkText (text : String) (chunkSize overlap : ℕ)
    (pages : Option (List PageInfo)) : List ChunkWithPage :=
  match pages with
  | some ps =>
    if ps ≠ [] then (ps.foldl (pageStep chunkSize overlap) ([], 0)).1
    else chunkTextNoPages text chunkSize overlap
  | none => chunkTextNoPages text chunkSize overlap

end DocumentParser

namespace FileProcessor

/-- JavaScript `text.replace(/\s+/g, ' ')`: collapse every maximal
whitespace run into a single space.  `inRun` records whether the previous
character was whitespace. -/
def collapseWsAux : List Char → Bool → List Char
  | [], _ => []
  | c :: cs, inRun =>
    if isJsWs c then
      if inRun then collapseWsAux cs true else ' ' :: collapseWsAux cs true
    else c :: collapseWsAux cs false

/-- The worker chunker's `cleanText`:
`text.replace(/\s+/g, ' ').trim()`. -/
def cleanText (text : String) : List Char :=
  jsTrimL (collapseWsAux text.data false)

/-- JavaScript `s.lastIndexOf(c, pos)` for a single character: the largest
index `≤ min(pos, len-1)` holding `c`, or `-1`. -/
def lastIndexOfC (s : List Char) (c : Char) (pos : ℕ) : ℤ :=
  match ((s.take (pos + 1)).reverse).findIdx? (· == c) with
  | some j => ((s.take (pos + 1)).length - 1 - j : ℤ)
  | none => -1

/-- End index of the window starting at `start`: `start + chunkSize`,
pulled back to just after the best break point (`.`, `\n` or space) when
that point lies beyond the window's midpoint
(`breakPoint > start + chunkSize * 0.5`, exact over the integers as
`2 * breakPoint > 2 * start + chunkSize`). -/
def breakAdjustedEnd (ct : List Char) (chunkSize : ℕ) (start : ℕ) : ℕ :=
  let e := start + chunkSize
  if e < ct.length then
    let lastPeriod := lastIndexOfC ct '.' e
    let lastNewline := lastIndexOfC ct '\n' e
    let lastSpace := lastIndexOfC ct ' ' e
    let breakPoint := max lastPeriod (max lastNewline lastSpace)
    if 2 * breakPoint > 2 * (start : ℤ) + (chunkSize : ℤ) then (breakPoint + 1).toNat
    else e
  else e

/-- Loop-variable update of the worker chunker:
`start = Math.max(end - overlap, start + 1)`. -/
def nextStart (overlap e start : ℕ) : ℕ :=
  max ((e : ℤ) - (overlap : ℤ)).toNat (start + 1)

/-- Chunk emitted by the worker chunker.  The source also stores a
`totalChunks` metadata field patched in after the loop; it plays no role in
the claims and is omitted. -/
structure WChunk where
  id : String
  content : String
  chunkIndex : ℕ
  startPosition : Option ℕ
  endPosition : Option ℕ
deriving DecidableEq

/-- Trimmed window content `cleanText.slice(start, end).trim()` of the
worker chunker's loop body. -/
def chunkContentAt (ct : List Char) (chunkSize start : ℕ) : List Char :=
  jsTrimL ((ct.drop start).take (breakAdjustedEnd ct chunkSize start - start))

/-- Main `while (start < cleanText.length)` loop of the worker `chunkText`:
slice `[start, end)`, trim it, emit it when non-empty (the `chunkIndex`
advances only on emission), then advance `start` by at least one position. -/
def chunkLoop (ct : List Char) (chunkSize overlap : ℕ) :
    (start : ℕ) → (idx : ℕ) → (acc : List WChunk) → List WChunk
  | start, idx, acc =>
    if h : start < ct.length then
      if hc : chunkContentAt ct chunkSize start ≠ [] then
        chunkLoop ct chunkSize overlap
          (nextStart overlap (breakAdjustedEnd ct chunkSize start) start) (idx + 1)
          (acc ++ [{ id := "chunk_" ++ toString idx
                     content := String.mk (chunkContentAt ct chunkSize start)
                     chunkIndex := idx, startPosition := some start
                     endPosition := some (breakAdjustedEnd ct chunkSize start) }])
      else
        chunkLoop ct chunkSize overlap
          (nextStart overlap (breakAdjustedEnd ct chunkSize start) start) idx acc
    else acc
termination_by start _ _ => ct.length - start
decreasing_by
  all_goals
    have h1 : start + 1 ≤ nextStart overlap (breakAdjustedEnd ct chunkSize start) start :=
      le_max_right _ _
  all_goals omega

/-- Worker-side character-window `chunkText` of
`src/workers/file-processor.ts` (source defaults: `chunkSize = 1000`,
`overlap = 200`).  Text fitting in one window is returned as a single chunk
without position metadata, exactly as the source's short path builds it. -/
def chunkTextWorker (text : String) (chunkSize overlap : ℕ) : List WChunk :=
  let ct := cleanText text
  if ct.length ≤ chunkSize then
    [{ id := "chunk_0", content := String.mk ct, chunkIndex := 0
       startPosition := none, endPosition := none }]
  else chunkLoop ct chunkSize overlap 0 0 []

end FileProcessor

namespace RecommendationEngine

/-- Chinese punctuation class `[，。！？；：]` of the keyword splitter. -/
def isCnPunct (c : Char) : Bool :=
  c == '，' || c == '。' || c == '！' || c == '？' || c == '；' || c == '：'

/-- Sentence punctuation class `[。！？]` of the concept extractor. -/
def isCnSentPunct (c : Char) : Bool :=
  c == '。' || c == '！' || c == '？'

/-- Separator class `[，、]` of the concept extractor's word split. -/
def isCnComma (c : Char) : Bool :=
  c == '，' || c == '、'

/-- Recommended question record (interface `RecommendedQuestion`).
Identifiers come from `uuidv4()` / `Math.random()` in the source; they are
modelled as the fixed strings built around them, with the random part
dropped (no claim inspects identifiers). -/
structure RecommendedQuestion where
  id : String
  question : String
  category : String
  relevanceScore : ℚ
  context : String
  source : Option String
deriving DecidableEq

/-- One conversation turn (`previousMessages` entries). -/
structure ChatMessage where
  role : String
  content : String
deriving DecidableEq

/-- Conversation context handed to the engine
(interface `ConversationContext`). -/
structure ConversationContext where
  currentMessage : String
  previousMessages : List ChatMessage
  topics : List String
  userIntent : String
deriving DecidableEq

/-- Engine configuration value `maxRecommendations` (default 3). -/
def maxRecommendations : ℕ := 3

/-- Engine configuration value `relevanceThreshold` (default 0.6). -/
def relevanceThreshold : ℚ := 0.6

/-- Engine configuration value `categories` (default five categories). -/
def categories : List String :=
  ["基础概念", "实践操作", "案例分析", "深入学习", "相关主题"]

/-- Stop-word set of `extractKeywords`. -/
def stopWords : List String :=
  ["的", "是", "在", "有", "和", "与", "或", "但", "如何", "什么", "哪些"]

/-- Word list of `extractKeywords`:
`text.split(/\s+|[，。！？；：]/).filter(word => word.length > 1 && !stopWords.has(word))`. -/
def keywordCandidates (text : String) : List String :=
  (jsSplitMixed isJsWs isCnPunct text).filter fun w =>
    decide (1 < w.length) && !(stopWords.contains w)

/-- Frequency tally in first-occurrence order, as a JavaScript `Map` built
by `wordCount.set(word, (wordCount.get(word) || 0) + 1)`. -/
def tally (ws : List String) : List (String × ℕ) :=
  ws.foldl
    (fun acc w =>
      if (acc.find? fun p => p.1 == w).isSome then
        acc.map fun p => if p.1 == w then (p.1, p.2 + 1) else p
      else acc ++ [(w, 1)])
    []

/-- The engine's `extractKeywords`: top five words by descending frequency. -/
def extractKeywords (text : String) : List String :=
  (((tally (keywordCandidates text)).insertionSort
      (fun a b => b.2 ≤ a.2)).take 5).map (·.1)

/-- Topic dictionary of `identifyTopics`. -/
def topicKeywords : List (String × List String) :=
  [("电子商务", ["电商", "电子商务", "网店", "在线销售", "电商平台"]),
   ("直播电商", ["直播", "直播带货", "主播", "直播间", "直播电商"]),
   ("运营", ["运营", "推广", "营销", "数据分析", "用户运营"]),
   ("供应链", ["供应链", "物流", "仓储", "配送", "库存"])]

/-- The engine's `identifyTopics`: a topic is recognised when any of its
keywords occurs in the joined conversation text. -/
def identifyTopics (ctx : ConversationContext) : List String :=
  let allText := String.intercalate " "
    (ctx.currentMessage :: ctx.previousMessages.map (·.content))
  topicKeywords.filterMap fun tk =>
    if tk.2.any (fun k => containsSub allText k) then some tk.1 else none

/-- The engine's `analyzeUserIntent`: keyword pattern match on the
lower-cased current message. -/
def analyzeUserIntent (ctx : ConversationContext) : String :=
  let m := jsToLower ctx.currentMessage
  if containsSub m "如何" || containsSub m "怎么" || containsSub m "方法" then
    "problem-solving"
  else if containsSub m "区别" || containsSub m "对比" || containsSub m "比较" then
    "comparison"
  else if containsSub m "学习" || containsSub m "了解" || containsSub m "知识" then
    "learning"
  else "general"

/-- Vector-search hit used by the keyword question generator
(`pineconeIndex.query` with `topK: 5`). -/
structure KwMatch where
  score : ℚ
  full_content : String
  filename : String
deriving DecidableEq

/-- The search oracle: embedding plus vector query for one keyword, `.error`
when either external call throws (caught per-keyword by the generator). -/
def KwSearch : Type := String → Except Unit (List KwMatch)

/-- The engine's `generateKeywordBasedQuestions`: for the first three
keywords, turn every search hit with truthy score above `0.7` into a
deep-dive question; a thrown search is swallowed for that keyword. -/
def generateKeywordBasedQuestions (search : KwSearch) (keywords : List String) :
    List RecommendedQuestion :=
  (keywords.take 3).foldl
    (fun qs kw =>
      match search kw with
      | .error _ => qs
      | .ok hits =>
        qs ++ hits.filterMap fun (m : KwMatch) =>
          if m.score ≠ 0 ∧ 0.7 < m.score then
            some { id := "keyword-" ++ kw ++ "-"
                   question := "关于" ++ kw ++ "，还有哪些需要了解的要点？"
                   category := "深入学习", relevanceScore := m.score
                   context := substrTo m.full_content 100 ++ "..."
                   source := some m.filename }
          else none)
    []

/-- Topic question template table of `generateTopicBasedQuestions` (the
`供应链` topic has no templates). -/
def topicQuestionTemplates : List (String × List String) :=
  [("电子商务",
    ["电子商务的发展趋势是什么？", "如何选择合适的电商平台？", "电商运营的核心指标有哪些？"]),
   ("直播电商",
    ["直播电商的关键成功因素是什么？", "如何提高直播间的转化率？", "直播电商与传统电商的区别在哪里？"]),
   ("运营",
    ["电商运营的日常工作包括哪些？", "如何制定有效的运营策略？", "运营数据分析的重点是什么？"])]

/-- The engine's `generateTopicBasedQuestions`. -/
def generateTopicBasedQuestions (topics : List String) : List RecommendedQuestion :=
  topics.foldl
    (fun qs t =>
      match (topicQuestionTemplates.find? fun p => p.1 == t) with
      | some p =>
        qs ++ p.2.map fun q =>
          { id := "", question := q, category := "相关主题"
            relevanceScore := 0.8, context := "基于" ++ t ++ "主题生成的推荐问题"
            source := none }
      | none => qs)
    []

/-- Intent question table of `generateIntentBasedQuestions` (unknown intents
map to the empty list). -/
def intentQuestionMap : List (String × List String) :=
  [("learning", ["想了解更多基础概念吗？", "需要看一些实际案例吗？", "想深入学习相关技能吗？"]),
   ("problem-solving", ["遇到类似问题时该如何处理？", "有什么预防措施可以采取？", "还有其他解决方案吗？"]),
   ("comparison", ["这些方案的优缺点分别是什么？", "在不同场景下该如何选择？", "有没有更好的替代方案？"])]

/-- The engine's `generateIntentBasedQuestions`. -/
def generateIntentBasedQuestions (intent : String) : List RecommendedQuestion :=
  (((intentQuestionMap.find? fun p => p.1 == intent).map (·.2)).getD []).map fun q =>
    { id := "", question := q, category := "实践操作"
      relevanceScore := 0.75
      context := "基于用户意图 " ++ intent ++ " 生成的推荐问题"
      source := none }

/-- Cited source document (`sources` argument of the engine). -/
structure SourceDoc where
  filename : String
  content : String
deriving DecidableEq

/-- The engine's `extractConceptsFromContent`: first long word of each of
the first three long sentences, capped at three concepts. -/
def extractConceptsFromContent (content : String) : List String :=
  let sentences := (jsSplitMixed (fun _ => false) isCnSentPunct content).filter
    fun s => decide (10 < s.length)
  (((sentences.take 3).filterMap fun sentence =>
    ((jsSplitMixed isJsWs isCnComma sentence).filter
      fun w => decide (2 < w.length)).head?).take 3)

/-- The engine's `generateSourceBasedQuestions` over the first two sources. -/
def generateSourceBasedQuestions (sources : List SourceDoc) :
    List RecommendedQuestion :=
  (sources.take 2).foldl
    (fun qs src =>
      qs ++ (extractConceptsFromContent src.content).map fun concept =>
        { id := "", question := "在" ++ src.filename ++ "中，" ++ concept ++ "的具体应用是什么？"
          category := "案例分析", relevanceScore := 0.7
          context := substrTo src.content 100 ++ "..."
          source := some src.filename })
    []

/-- The engine's `generateCandidateQuestions`: concatenation of the four
generators, the source-based one only when sources were provided. -/
def generateCandidateQuestions (search : KwSearch) (keywords topics : List String)
    (intent : String) (sources : List SourceDoc) : List RecommendedQuestion :=
  generateKeywordBasedQuestions search keywords
    ++ generateTopicBasedQuestions topics
    ++ generateIntentBasedQuestions intent
    ++ (if sources ≠ [] then generateSourceBasedQuestions sources else [])

/-- Category weight table of `calculateRelevanceScore` (unknown categories
weigh 0.7). -/
def categoryWeight (c : String) : ℚ :=
  if c = "基础概念" then 0.8
  else if c = "实践操作" then 0.9
  else if c = "案例分析" then 0.85
  else if c = "深入学习" then 0.75
  else if c = "相关主题" then 0.7
  else 0.7

/-- The engine's `calculateRelevanceScore`: seed score plus `0.1` per
keyword contained in the question, scaled by the category weight, capped at
`1`. -/
def calculateRelevanceScore (keywords : List String) (q : RecommendedQuestion) : ℚ :=
  let kwMatches := (keywords.filter fun k =>
    containsSub (jsToLower q.question) (jsToLower k)).length
  min ((q.relevanceScore + (kwMatches : ℚ) * 0.1) * categoryWeight q.category) 1

/-- Descending-relevance comparison used by
`sort((a, b) => b.relevanceScore - a.relevanceScore)`. -/
def rqLe (a b : RecommendedQuestion) : Prop :=
  b.relevanceScore ≤ a.relevanceScore

instance : DecidableRel rqLe := fun a b =>
  inferInstanceAs (Decidable (b.relevanceScore ≤ a.relevanceScore))

instance : IsTotal RecommendedQuestion rqLe :=
  ⟨fun a b => le_total b.relevanceScore a.relevanceScore⟩

instance : IsTrans RecommendedQuestion rqLe := ⟨fun _ _ _ h h' => le_trans h' h⟩

/-- The engine's `scoreQuestions`: recompute every relevance score, then
sort descending. -/
def scoreQuestions (keywords : List String) (qs : List RecommendedQuestion) :
    List RecommendedQuestion :=
  (qs.map fun q => { q with relevanceScore := calculateRelevanceScore keywords q }).insertionSort rqLe

/-- The engine's `applyDiversityFilter`: admit a question when its relevance
clears the threshold and its category is new or categories are not yet
exhausted; `usedCategories` is a set, so re-adding is a no-op. -/
def applyDiversityFilter (qs : List RecommendedQuestion) : List RecommendedQuestion :=
  (qs.foldl
    (fun (st : List RecommendedQuestion × List String) q =>
      if relevanceThreshold ≤ q.relevanceScore then
        if q.category ∉ st.2 ∨ st.2.length < categories.length then
          (st.1 ++ [q], if q.category ∈ st.2 then st.2 else st.2 ++ [q.category])
        else st
      else st)
    ([], [])).1

/-- The engine's `getFallbackRecommendations`. -/
def getFallbackRecommendations : List RecommendedQuestion :=
  [{ id := "", question := "电子商务的基本概念是什么？", category := "基础概念"
     relevanceScore := 0.6, context := "基础电商知识", source := none },
   { id := "", question := "如何开始电商运营？", category := "实践操作"
     relevanceScore := 0.6, context := "电商运营入门", source := none },
   { id := "", question := "直播电商有哪些优势？", category := "相关主题"
     relevanceScore := 0.6, context := "直播电商知识", source := none }]

/-- Body of the `try` block of `generateRecommendations`: analyze the
context, generate candidates, score, diversify, truncate. -/
def generateRecommendationsBody (search : KwSearch) (ctx : ConversationContext)
    (sources : List SourceDoc) : List RecommendedQuestion :=
  let keywords := extractKeywords ctx.currentMessage
  let topics := identifyTopics ctx
  let intent := analyzeUserIntent ctx
  let candidates := generateCandidateQuestions search keywords topics intent sources
  ((applyDiversityFilter (scoreQuestions keywords candidates)).take maxRecommendations)

/-- The `try`/`catch` of `generateRecommendations`: a thrown pipeline is
replaced by the fixed fallback set. -/
def catchWithFallback (r : Except Unit (List RecommendedQuestion)) :
    List RecommendedQuestion :=
  match r with
  | .ok qs => qs
  | .error _ => getFallbackRecommendations

/-- The engine's `generateRecommendations`.  All throw sites inside the
`try` block sit behind the per-keyword catch of the keyword generator, so
the body itself always completes; the surrounding catch is retained as
`catchWithFallback`. -/
def generateRecommendations (search : KwSearch) (ctx : ConversationContext)
    (sources : List SourceDoc) : List RecommendedQuestion :=
  catchWithFallback (.ok (generateRecommendationsBody search ctx sources))

end RecommendationEngine

/-! ### Claim theorems -/

/-- C9: `generateRecommendations` never throws and always returns at most
`maxRecommendations` (default 3) recommended questions; if any internal step
throws, the catch returns the fixed set of generic fallback questions
instead of propagating the error. -/
theorem claim_C9_recommendations_bounded :
    (∀ (search : RecommendationEngine.KwSearch)
        (ctx : RecommendationEngine.ConversationContext)
        (sources : List RecommendationEngine.SourceDoc),
      (RecommendationEngine.generateRecommendations search ctx sources).length ≤
        RecommendationEngine.maxRecommendations) ∧
    (∀ e : Unit,
      RecommendationEngine.catchWithFallback (Except.error e) =
        RecommendationEngine.getFallbackRecommendations) ∧
    RecommendationEngine.getFallbackRecommendations.length =
      RecommendationEngine.maxRecommendations := by
  refine ⟨fun search ctx sources => ?_, fun e => rfl, rfl⟩
  simp only [RecommendationEngine.generateRecommendations,
    RecommendationEngine.catchWithFallback,
    RecommendationEngine.generateRecommendationsBody, List.length_take]
  exact min_le_left _ _

/-- C6 counterexample: a match whose similarity score is exactly the floor
`0.6` — hence "not below the floor" — is nevertheless filtered out, because
the code compares with strict `>`. -/
theorem claim_C6_counterexample :
    (0.6 : ℚ) ≤ ChatRoute.scoreOrZero { score := some 0.6 } ∧
    ChatRoute.filterSearchMatches [{ score := some 0.6 }] = [] := by
  constructor
  · simp [ChatRoute.scoreOrZero]
  · simp [ChatRoute.filterSearchMatches, ChatRoute.scoreOrZero]

/-- C6 (amended): exactly the matches with similarity score strictly above
the floor `0.6` proceed to reranking; in particular, of candidates scored
`[0.9, 0.55, 0.7]` exactly 2 proceed. -/
theorem claim_C6_amended :
    (∀ (ms : List ChatRoute.RawMatch) (m : ChatRoute.RawMatch),
      m ∈ ChatRoute.filterSearchMatches ms ↔
        m ∈ ms ∧ 0.6 < ChatRoute.scoreOrZero m) ∧
    (ChatRoute.filterSearchMatches
        [{ score := some 0.9 }, { score := some 0.55 }, { score := some 0.7 }]).length = 2 := by
  constructor
  · intro ms m
    simp [ChatRoute.filterSearchMatches, List.mem_filter]
  · norm_num [ChatRoute.filterSearchMatches, ChatRoute.scoreOrZero, List.filter]

/-- C2 counterexample: an embedding task with default bounds failing
`maxRetries + 1 = 4` times is permanently dropped, but the owning document —
sitting at `processing` since the file stage — is never marked `failed`,
because `processEmbedding`'s catch block performs no status write. -/
theorem claim_C2_counterexample :
    FileQueue.embeddingFailuresRun 4
        { id := "embedding_1", retryCount := none, maxRetries := some 3 }
        FileQueue.DocStatus.processing =
      (none, FileQueue.DocStatus.processing) ∧
    FileQueue.DocStatus.processing ≠ FileQueue.DocStatus.failed := by
  exact ⟨by decide, by decide⟩

/-- C2 (amended): a task that fails `maxRetries + 1` times is never
re-enqueued again (`retryFailedTask` returns `false` and leaves the queue
untouched), for all three task kinds; a final failure marks the owning
document `failed` for the file-processing and vector-storage kinds, while
for the embedding kind the document status is left unchanged. -/
theorem claim_C2_amended :
    ∀ (t : FileQueue.QueueTask) (m : ℕ) (q : List FileQueue.QueueTask),
      t.retryCount = none → t.maxRetries = some m → 0 < m →
      FileQueue.afterFailures m t = some { t with retryCount := some m } ∧
      FileQueue.afterFailures (m + 1) t = none ∧
      FileQueue.retryFailedTask q { t with retryCount := some m } = (false, q) ∧
      (∀ s, FileQueue.statusAfterFileProcessingFailure s = FileQueue.DocStatus.failed) ∧
      (∀ s, FileQueue.statusAfterVectorStorageFailure s = FileQueue.DocStatus.failed) ∧
      (∀ s, FileQueue.statusAfterEmbeddingFailure s = s) := by
  intro t m q hrc hmr hm
  have hmax : ∀ k : ℕ, FileQueue.maxRetriesOrDefault { t with retryCount := some k } = m := by
    intro k
    cases m with
    | zero => omega
    | succ n => simp [FileQueue.maxRetriesOrDefault, hmr]
  have hmax0 : FileQueue.maxRetriesOrDefault t = m := by
    cases m with
    | zero => omega
    | succ n => simp [FileQueue.maxRetriesOrDefault, hmr]
  have key : ∀ k : ℕ, 1 ≤ k → k ≤ m →
      FileQueue.afterFailures k t = some { t with retryCount := some k } := by
    intro k
    induction k with
    | zero => omega
    | succ n ih =>
      intro _ hle
      rcases Nat.eq_zero_or_pos n with hn | hn
      · subst hn
        simp [FileQueue.afterFailures, FileQueue.failOnce,
          FileQueue.retryCountOrZero, hrc, hmax0, hle]
      · have hnm : n ≤ m := le_trans (Nat.le_succ n) hle
        have h1 := ih hn hnm
        simp only [FileQueue.afterFailures, h1, Option.bind_some]
        simp [FileQueue.failOnce, FileQueue.retryCountOrZero, hmax, hle]
  refine ⟨key m hm le_rfl, ?_, ?_, fun s => rfl, fun s => rfl, fun s => rfl⟩
  · simp only [FileQueue.afterFailures, key m hm le_rfl, Option.bind_some]
    simp [FileQueue.failOnce, FileQueue.retryCountOrZero, hmax]
  · simp [FileQueue.retryFailedTask, FileQueue.retryCountOrZero, hmax]

/-- C2 witness: the amended claim instantiated at an embedding task with the
default retry bound. -/
theorem claim_C2_amended_witness :
    ({ id := "t", retryCount := none, maxRetries := some 3 } :
        FileQueue.QueueTask).retryCount = none ∧
    FileQueue.afterFailures 4 { id := "t", retryCount := none, maxRetries := some 3 } = none :=
  ⟨rfl, (claim_C2_amended { id := "t", retryCount := none, maxRetries := some 3 } 3 []
    rfl rfl (by decide)).2.1⟩

/-- C8: when the fallback reranking path itself throws (a query word fails
to compile as a regular expression, the try block's only throw site), the
catch returns the original candidates truncated to `topK` with `score`,
`originalScore` and `rerankScore` all equal to the input score; no error
propagates (the function is total). -/
theorem claim_C8_last_resort (compileOk : String → Bool) (query : String)
    (ms : List Reranker.SearchMatch) (topK : ℕ)
    (h : ∃ w ∈ Reranker.queryWords query, compileOk w = false) :
    Reranker.rerankBySimilarity compileOk query ms topK =
      (ms.take topK).map fun m =>
        { content := m.content, filename := m.filename
          document_id := m.document_id, page := m.page, page_type := m.page_type
          score := m.score, originalScore := m.score
          rerankScore := m.score } := by
  obtain ⟨w, hw, hcomp⟩ := h
  have hall : ¬ (Reranker.queryWords query).all compileOk = true := by
    simp only [List.all_eq_true]
    intro hforall
    have := hforall w hw
    rw [hcomp] at this
    exact Bool.false_ne_true this
  simp [Reranker.rerankBySimilarity, hall, Reranker.lastResort]

/-- C8 witness: the last-resort theorem instantiated at a word that fails to
compile. -/
theorem claim_C8_last_resort_witness :
    (∃ w ∈ Reranker.queryWords "(", (fun _ : String => false) w = false) ∧
    Reranker.rerankBySimilarity (fun _ => false) "("
        [{ content := "直播电商运营", filename := "a.pptx", document_id := "d1"
           page := none, page_type := "slide", score := 0.9 }] 5 =
      (([{ content := "直播电商运营", filename := "a.pptx", document_id := "d1"
           page := none, page_type := "slide",
           score := 0.9 }] : List Reranker.SearchMatch).take 5).map fun m =>
        { content := m.content, filename := m.filename
          document_id := m.document_id, page := m.page, page_type := m.page_type
          score := m.score, originalScore := m.score
          rerankScore := m.score } :=
  ⟨⟨"(", by decide, rfl⟩,
    claim_C8_last_resort (fun _ => false) "(" _ 5 ⟨"(", by decide, rfl⟩⟩

/-- C1: for every behavior of the upstream completion stream — clean end
(with or without tokens) and mid-stream error, with or without a failing
recommendation step — the response stream emits exactly one event of type
`final`, as its last event before the stream closes; in the error case, the
`final` event is immediately preceded by a single apology `content` event. -/
theorem claim_C1_stream_termination :
    ∀ b : ChatRoute.UpstreamBehavior,
      (ChatRoute.chatStreamEvents b).countP ChatRoute.isFinal = 1 ∧
      (∃ ok, (ChatRoute.chatStreamEvents b).getLast? =
        some (ChatRoute.StreamEvent.final ok)) ∧
      (∀ toks, b = ChatRoute.UpstreamBehavior.err toks →
        ChatRoute.chatStreamEvents b =
          (toks.filter (· ≠ "")).map ChatRoute.StreamEvent.content ++
            [ChatRoute.StreamEvent.content ChatRoute.apologyMsg,
             ChatRoute.StreamEvent.final false]) := by
  have hmap : ∀ l : List String,
      (l.map ChatRoute.StreamEvent.content).countP ChatRoute.isFinal = 0 := by
    intro l
    rw [List.countP_map]
    simp [Function.comp, ChatRoute.isFinal]
  have hlast2 : ∀ (l : List ChatRoute.StreamEvent) (a b : ChatRoute.StreamEvent),
      (l ++ [a, b]).getLast? = some b := by
    intro l a b
    rw [show [a, b] = [a] ++ [b] from rfl, ← List.append_assoc, List.getLast?_concat]
  intro b
  cases b with
  | err toks =>
    refine ⟨?_, ⟨false, ?_⟩, fun toks' h => by cases h; rfl⟩
    · show ((toks.filter (· ≠ "")).map ChatRoute.StreamEvent.content ++
        [ChatRoute.StreamEvent.content ChatRoute.apologyMsg,
         ChatRoute.StreamEvent.final false]).countP ChatRoute.isFinal = 1
      rw [List.countP_append, hmap]
      simp [List.countP_cons, ChatRoute.isFinal]
    · exact hlast2 _ _ _
  | ok toks recsFail =>
    have hE0 : ∀ E : List ChatRoute.StreamEvent,
        (E = (toks.filter (· ≠ "")).map ChatRoute.StreamEvent.content ++
            [ChatRoute.StreamEvent.content ChatRoute.defaultMsg] ∨
         E = (toks.filter (· ≠ "")).map ChatRoute.StreamEvent.content) →
        E.countP ChatRoute.isFinal = 0 := by
      rintro E (rfl | rfl)
      · rw [List.countP_append, hmap]
        simp [List.countP_cons, ChatRoute.isFinal]
      · exact hmap _
    cases recsFail with
    | false =>
      by_cases htr : jsTrim (String.join (toks.filter (· ≠ ""))) = "" <;>
        refine ⟨?_, ⟨true, ?_⟩, fun toks' h => nomatch h⟩ <;>
        simp only [ChatRoute.chatStreamEvents, htr, if_true, if_false, Bool.false_eq_true,
          ite_true, ite_false, reduceIte] <;>
        first
          | (rw [List.countP_append, hE0 _ (Or.inl rfl)]
             simp [List.countP_cons, ChatRoute.isFinal])
          | (rw [List.countP_append, hE0 _ (Or.inr rfl)]
             simp [List.countP_cons, ChatRoute.isFinal])
          | rw [List.getLast?_concat]
    | true =>
      by_cases htr : jsTrim (String.join (toks.filter (· ≠ ""))) = "" <;>
        refine ⟨?_, ⟨false, ?_⟩, fun toks' h => nomatch h⟩ <;>
        simp only [ChatRoute.chatStreamEvents, htr, if_true, if_false,
          ite_true, ite_false, reduceIte] <;>
        first
          | (rw [List.countP_append, hE0 _ (Or.inl rfl)]
             simp [List.countP_cons, ChatRoute.isFinal])
          | (rw [List.countP_append, hE0 _ (Or.inr rfl)]
             simp [List.countP_cons, ChatRoute.isFinal])
          | exact hlast2 _ _ _

/-- C1 witness: the termination theorem instantiated at a mid-stream error
after one token. -/
theorem claim_C1_stream_termination_witness :
    ChatRoute.UpstreamBehavior.err ["你好"] = ChatRoute.UpstreamBehavior.err ["你好"] ∧
    ChatRoute.chatStreamEvents (ChatRoute.UpstreamBehavior.err ["你好"]) =
      ((["你好"] : List String).filter (· ≠ "")).map ChatRoute.StreamEvent.content ++
        [ChatRoute.StreamEvent.content ChatRoute.apologyMsg,
         ChatRoute.StreamEvent.final false] :=
  ⟨rfl, (claim_C1_stream_termination (ChatRoute.UpstreamBehavior.err ["你好"])).2.2
    ["你好"] rfl⟩

/-- C5: with the rerank endpoint unavailable, for every non-empty candidate
list and `topK ≥ 1` (and a query whose words all compile), `rerankWithBGE`
returns a non-empty result, sorted descending by score, where each
candidate's fused score is
`0.5 * originalScore + 0.3 * keywordDensity + 0.2 * min(1, length/1000)`
with `keywordDensity` the total occurrence count of the query terms in the
candidate text divided by the number of query terms. -/
theorem claim_C5_fallback_ranking (compileOk : String → Bool) (query : String)
    (ms : List Reranker.SearchMatch) (topK : ℕ)
    (hms : ms ≠ []) (htop : 1 ≤ topK)
    (hcomp : (Reranker.queryWords query).all compileOk = true) :
    Reranker.rerankWithBGE compileOk query ms topK none ≠ [] ∧
    List.Sorted Reranker.rrLe (Reranker.rerankWithBGE compileOk query ms topK none) ∧
    ∀ r ∈ Reranker.rerankWithBGE compileOk query ms topK none,
      ∃ m ∈ ms, r.originalScore = m.score ∧
        r.score = 0.5 * m.score +
          0.3 * ((((Reranker.queryWords query).foldl
              (fun acc w => acc + countOcc w (jsToLower m.content)) 0 : ℕ) : ℚ) /
            ((Reranker.queryWords query).length : ℚ)) +
          0.2 * min 1 ((m.content.length : ℚ) / 1000) := by
  have hbge : Reranker.rerankWithBGE compileOk query ms topK none =
      ((ms.map (Reranker.scoreMatch (Reranker.queryWords query))).insertionSort
        Reranker.rrLe).take topK := by
    simp [Reranker.rerankWithBGE, hms, Reranker.rerankBySimilarity, hcomp]
  refine ⟨?_, ?_, ?_⟩
  · rw [hbge]
    apply List.ne_nil_of_length_pos
    rw [List.length_take, List.length_insertionSort, List.length_map]
    exact lt_min_iff.mpr ⟨htop, List.length_pos.mpr hms⟩
  · rw [hbge]
    exact List.Pairwise.sublist (List.take_sublist _ _)
      (List.sorted_insertionSort Reranker.rrLe _)
  · intro r hr
    rw [hbge] at hr
    have hr' : r ∈ (ms.map (Reranker.scoreMatch (Reranker.queryWords query))).insertionSort
        Reranker.rrLe := (List.take_sublist _ _).mem hr
    have hr'' : r ∈ ms.map (Reranker.scoreMatch (Reranker.queryWords query)) :=
      (List.perm_insertionSort _ _).mem_iff.mp hr'
    obtain ⟨m, hm, rfl⟩ := List.mem_map.mp hr''
    refine ⟨m, hm, rfl, ?_⟩
    simp only [Reranker.scoreMatch, Reranker.keywordScore]
    ring

/-- C5 witness: the fallback-ranking theorem instantiated at a one-element
candidate list. -/
theorem claim_C5_fallback_ranking_witness :
    (([{ content := "电商平台运营", filename := "a.pdf", document_id := "d"
         page := none, page_type := "", score := 0.8 }] :
        List Reranker.SearchMatch) ≠ []) ∧
    1 ≤ 3 ∧
    ((Reranker.queryWords "电商").all (fun _ => true) = true) ∧
    Reranker.rerankWithBGE (fun _ => true) "电商"
        [{ content := "电商平台运营", filename := "a.pdf", document_id := "d"
           page := none, page_type := "", score := 0.8 }] 3 none ≠ [] :=
  ⟨by simp, by decide, by decide,
    (claim_C5_fallback_ranking (fun _ => true) "电商" _ 3 (by simp) (by decide)
      (by decide)).1⟩

/-- C4: on the primary rerank path, each returned candidate's fused score is
`0.3 * originalSimilarity + 0.7 * relevanceScore`, the result is sorted
descending by fused score, and — given that the endpoint returns at most the
`topK` items it was asked for — has length at most `topK`; the scenario with
original scores `[0.5, 0.8]` and relevance scores `[0.9, 0.2]` fuses to
`[0.78, 0.38]` in the order first, second. -/
theorem claim_C4_primary_path :
    (∀ (compileOk : String → Bool) (query : String) (ms : List Reranker.SearchMatch)
        (topK : ℕ) (items : List Reranker.ApiItem),
      ms ≠ [] →
      Reranker.processApiResults ms items ≠ [] →
      items.length ≤ topK →
      (∀ r ∈ Reranker.rerankWithBGE compileOk query ms topK (some items),
        ∃ item ∈ items, ∃ m : Reranker.SearchMatch,
          ms[item.index]? = some m ∧
          r.score = 0.3 * m.score + 0.7 * item.relevance_score ∧
          r.originalScore = m.score) ∧
      List.Sorted Reranker.rrLe (Reranker.rerankWithBGE compileOk query ms topK (some items)) ∧
      (Reranker.rerankWithBGE compileOk query ms topK (some items)).length ≤ topK) ∧
    ((Reranker.rerankWithBGE (fun _ => true) "q"
        [{ content := "c1", filename := "first", document_id := "", page := none
           page_type := "", score := 0.5 },
         { content := "c2", filename := "second", document_id := "", page := none
           page_type := "", score := 0.8 }]
        2 (some [{ index := 0, relevance_score := 0.9 },
                 { index := 1, relevance_score := 0.2 }])).map
      (fun r => (r.filename, r.score)) = [("first", 0.78), ("second", 0.38)]) := by
  constructor
  · intro compileOk query ms topK items hms hne hlen
    have hbge : Reranker.rerankWithBGE compileOk query ms topK (some items) =
        (Reranker.processApiResults ms items).insertionSort Reranker.rrLe := by
      simp [Reranker.rerankWithBGE, hms, hne]
    refine ⟨?_, ?_, ?_⟩
    · intro r hr
      rw [hbge] at hr
      have hr' : r ∈ Reranker.processApiResults ms items :=
        (List.perm_insertionSort _ _).mem_iff.mp hr
      obtain ⟨item, hitem, hmap⟩ := List.mem_filterMap.mp hr'
      obtain ⟨m, hm, rfl⟩ := Option.map_eq_some'.mp hmap
      exact ⟨item, hitem, m, hm, by ring, rfl⟩
    · rw [hbge]
      exact List.sorted_insertionSort Reranker.rrLe _
    · rw [hbge, List.length_insertionSort]
      exact le_trans (List.length_filterMap_le _ _) hlen
  · norm_num [Reranker.rerankWithBGE, Reranker.processApiResults,
      List.insertionSort, List.orderedInsert, Reranker.rrLe]
    rw [if_neg (by simp)]
    simp

/-- C4 witness: the primary-path theorem instantiated at the scenario
candidates and response. -/
theorem claim_C4_primary_path_witness :
    (([{ content := "c1", filename := "first", document_id := "", page := none
         page_type := "", score := 0.5 }] : List Reranker.SearchMatch) ≠ []) ∧
    (Reranker.processApiResults
        [{ content := "c1", filename := "first", document_id := "", page := none
           page_type := "", score := 0.5 }]
        [{ index := 0, relevance_score := 0.9 }] ≠ []) ∧
    ([({ index := 0, relevance_score := 0.9 } : Reranker.ApiItem)].length ≤ 2) ∧
    (Reranker.rerankWithBGE (fun _ => true) "q"
        [{ content := "c1", filename := "first", document_id := "", page := none
           page_type := "", score := 0.5 }] 2
        (some [{ index := 0, relevance_score := 0.9 }])).length ≤ 2 :=
  ⟨by simp, by simp [Reranker.processApiResults], by decide,
    (claim_C4_primary_path.1 (fun _ => true) "q" _ 2 _ (by simp)
      (by simp [Reranker.processApiResults]) (by decide)).2.2⟩

/-- Every chunk emitted by the worker chunker's main loop has non-empty
content, because the loop pushes a window only after checking
`chunkContent.length > 0`. -/
theorem chunkLoop_content_ne :
    ∀ (n : ℕ) (ct : List Char) (cs ov start idx : ℕ) (acc : List FileProcessor.WChunk),
      ct.length - start ≤ n →
      (∀ c ∈ acc, c.content ≠ "") →
      ∀ c ∈ FileProcessor.chunkLoop ct cs ov start idx acc, c.content ≠ "" := by
  intro n
  induction n with
  | zero =>
    intro ct cs ov start idx acc hle hacc c hc
    unfold FileProcessor.chunkLoop at hc
    rw [dif_neg (by omega)] at hc
    exact hacc c hc
  | succ n ih =>
    intro ct cs ov start idx acc hle hacc c hc
    unfold FileProcessor.chunkLoop at hc
    have hstep : start + 1 ≤
        FileProcessor.nextStart ov (FileProcessor.breakAdjustedEnd ct cs start) start :=
      le_max_right _ _
    split_ifs at hc with h hcont
    · refine ih ct cs ov _ _ _ (by omega) ?_ c hc
      intro c' hc'
      rcases List.mem_append.mp hc' with h' | h'
      · exact hacc c' h'
      · rw [List.mem_singleton] at h'
        subst h'
        simp only [ne_eq]
        intro habs
        exact hcont (by simpa using congrArg String.data habs)
    · exact ih ct cs ov _ _ _ (by omega) hacc c hc
    · exact hacc c hc

/-- C10 counterexample: on whitespace-only input the short path of the
worker `chunkText` emits a single chunk whose content is empty, refuting
"every emitted chunk has non-empty content". -/
theorem claim_C10_counterexample :
    FileProcessor.chunkTextWorker " " 1000 200 =
      [{ id := "chunk_0", content := "", chunkIndex := 0
         startPosition := none, endPosition := none }] := by
  decide

/-- C10 (amended): the worker chunker's loop variable strictly increases on
every iteration (`start` becomes `max(end - overlap, start + 1)`), so the
loop terminates for every input, chunk size and overlap (`chunkLoop` and
`chunkTextWorker` are total functions); and every emitted chunk has
non-empty content provided the cleaned input text is non-empty. -/
theorem claim_C10_amended :
    (∀ overlap e start, start < FileProcessor.nextStart overlap e start) ∧
    (∀ (text : String) (chunkSize overlap : ℕ),
      FileProcessor.cleanText text ≠ [] →
      ∀ c ∈ FileProcessor.chunkTextWorker text chunkSize overlap, c.content ≠ "") := by
  constructor
  · intro ov e start
    exact lt_of_lt_of_le (Nat.lt_succ_self start) (le_max_right _ _)
  · intro text cs ov hne c hc
    simp only [FileProcessor.chunkTextWorker] at hc
    split_ifs at hc with h
    · rw [List.mem_singleton] at hc
      subst hc
      simp only [ne_eq]
      intro habs
      exact hne (by simpa using congrArg String.data habs)
    · exact chunkLoop_content_ne (FileProcessor.cleanText text).length _ cs ov 0 0 []
        (by omega) (by simp) c hc

/-- C10 witness: the amended theorem instantiated at a small plain text. -/
theorem claim_C10_amended_witness :
    FileProcessor.cleanText "hello world" ≠ [] ∧
    (∀ c ∈ FileProcessor.chunkTextWorker "hello world" 1000 200, c.content ≠ "") :=
  ⟨by decide, claim_C10_amended.2 "hello world" 1000 200 (by decide)⟩

/-- Appending a chunk carrying the running index extends a contiguous index
sequence by one. -/
theorem push_chunkIndex (chunks : List DocumentParser.ChunkWithPage) (idx : ℕ)
    (c : DocumentParser.ChunkWithPage)
    (h : chunks.map (·.chunkIndex) = List.range idx) (hc : c.chunkIndex = idx) :
    (chunks ++ [c]).map (·.chunkIndex) = List.range (idx + 1) := by
  rw [List.map_append, h, List.range_succ]
  simp [hc]

/-- The flat sentence loop of the page-aware chunker preserves contiguity of
the emitted chunk indices. -/
theorem noPagesStep_inv (cs ov : ℕ) (st : DocumentParser.NoPagesState) (s : String)
    (h : st.chunks.map (·.chunkIndex) = List.range st.idx) :
    (DocumentParser.noPagesStep cs ov st s).chunks.map (·.chunkIndex) =
      List.range (DocumentParser.noPagesStep cs ov st s).idx := by
  dsimp only [DocumentParser.noPagesStep]
  split_ifs with hcond
  all_goals first
    | exact push_chunkIndex _ _ _ h rfl
    | exact h

/-- Contiguity is preserved across the whole flat sentence fold. -/
theorem foldl_noPagesStep_inv (cs ov : ℕ) :
    ∀ (ss : List String) (st : DocumentParser.NoPagesState),
      st.chunks.map (·.chunkIndex) = List.range st.idx →
      ((ss.foldl (DocumentParser.noPagesStep cs ov) st).chunks.map (·.chunkIndex) =
        List.range (ss.foldl (DocumentParser.noPagesStep cs ov) st).idx)
  | [], _, h => h
  | s :: ss, st, h =>
    foldl_noPagesStep_inv cs ov ss _ (noPagesStep_inv cs ov st s h)

/-- The per-page sentence loop preserves contiguity of chunk indices. -/
theorem pageSentenceStep_inv (cs ov : ℕ) (page : DocumentParser.PageInfo)
    (st : DocumentParser.PageLoopState) (s : String)
    (h : st.chunks.map (·.chunkIndex) = List.range st.idx) :
    (DocumentParser.pageSentenceStep cs ov page st s).chunks.map (·.chunkIndex) =
      List.range (DocumentParser.pageSentenceStep cs ov page st s).idx := by
  dsimp only [DocumentParser.pageSentenceStep]
  split_ifs with hcond
  all_goals first
    | exact push_chunkIndex _ _ _ h rfl
    | exact h

/-- Contiguity is preserved across the per-page sentence fold. -/
theorem foldl_pageSentenceStep_inv (cs ov : ℕ) (page : DocumentParser.PageInfo) :
    ∀ (ss : List String) (st : DocumentParser.PageLoopState),
      st.chunks.map (·.chunkIndex) = List.range st.idx →
      ((ss.foldl (DocumentParser.pageSentenceStep cs ov page) st).chunks.map (·.chunkIndex) =
        List.range (ss.foldl (DocumentParser.pageSentenceStep cs ov page) st).idx)
  | [], _, h => h
  | s :: ss, st, h =>
    foldl_pageSentenceStep_inv cs ov page ss _ (pageSentenceStep_inv cs ov page st s h)

/-- The per-page step of the page-aware chunker preserves contiguity. -/
theorem pageStep_inv (cs ov : ℕ) (st : List DocumentParser.ChunkWithPage × ℕ)
    (page : DocumentParser.PageInfo)
    (h : st.1.map (·.chunkIndex) = List.range st.2) :
    (DocumentParser.pageStep cs ov st page).1.map (·.chunkIndex) =
      List.range (DocumentParser.pageStep cs ov st page).2 := by
  dsimp only [DocumentParser.pageStep]
  split_ifs with h1 h2
  · exact push_chunkIndex _ _ _ h rfl
  · exact push_chunkIndex _ _ _
      (foldl_pageSentenceStep_inv cs ov page (DocumentParser.splitSentences page.content)
        { chunks := st.1, cur := "", startChar := page.startChar, idx := st.2 } h) rfl
  · exact foldl_pageSentenceStep_inv cs ov page (DocumentParser.splitSentences page.content)
      { chunks := st.1, cur := "", startChar := page.startChar, idx := st.2 } h

/-- Contiguity is preserved across the page fold. -/
theorem foldl_pageStep_inv (cs ov : ℕ) :
    ∀ (ps : List DocumentParser.PageInfo) (st : List DocumentParser.ChunkWithPage × ℕ),
      st.1.map (·.chunkIndex) = List.range st.2 →
      ((ps.foldl (DocumentParser.pageStep cs ov) st).1.map (·.chunkIndex) =
        List.range (ps.foldl (DocumentParser.pageStep cs ov) st).2)
  | [], _, h => h
  | p :: ps, st, h => foldl_pageStep_inv cs ov ps _ (pageStep_inv cs ov st p h)

/-- A list whose image under `chunkIndex` is an initial range is indexed
contiguously from 0. -/
theorem map_range_of_inv (l : List DocumentParser.ChunkWithPage) (n : ℕ)
    (h : l.map (·.chunkIndex) = List.range n) :
    l.map (·.chunkIndex) = List.range l.length := by
  have hlen : l.length = n := by
    have := congrArg List.length h
    simpa using this
  rw [h, hlen]

/-- The flat branch of the page-aware chunker emits some initial range of
chunk indices. -/
theorem chunkTextNoPages_indexes (text : String) (cs ov : ℕ) :
    ∃ n, (DocumentParser.chunkTextNoPages text cs ov).map (·.chunkIndex) =
      List.range n := by
  have h := foldl_noPagesStep_inv cs ov (DocumentParser.splitSentences text)
    { chunks := [], cur := "", idx := 0, pos := 0 } rfl
  simp only [DocumentParser.chunkTextNoPages]
  split_ifs with hfin
  · exact ⟨_, push_chunkIndex _ _ _ h rfl⟩
  · exact ⟨_, h⟩

/-- C7 counterexample: `chunkText` on the text `"A. B. C."` with
`chunkSize = 3` and no page information returns 2 chunks, not 3
single-sentence chunks — the loop accumulates `"A"` and `"B"` into one
buffer before the size bound trips. -/
theorem claim_C7_counterexample :
    (DocumentParser.chunkText "A. B. C." 3 200 none).length = 2 ∧
    (DocumentParser.chunkText "A. B. C." 3 200 none).length ≠ 3 := by
  decide

/-- C7 (amended): `chunkText` on `"A. B. C."` with `chunkSize = 3` and no
page information returns 2 chunks, with contents `"A B"` and `"A B C"`,
each with `pageNumber = null` and strictly increasing `chunkIndex`; and in
general, for every input (with or without pages) the emitted `chunkIndex`
values are contiguous starting at 0. -/
theorem claim_C7_amended :
    ((DocumentParser.chunkText "A. B. C." 3 200 none).map
        (fun c => (c.content, c.pageNumber, c.chunkIndex)) =
      [("A B", none, 0), ("A B C", none, 1)]) ∧
    (∀ (text : String) (chunkSize overlap : ℕ)
        (pages : Option (List DocumentParser.PageInfo)),
      (DocumentParser.chunkText text chunkSize overlap pages).map (·.chunkIndex) =
        List.range (DocumentParser.chunkText text chunkSize overlap pages).length) := by
  constructor
  · decide
  · intro text cs ov pages
    have hex : ∃ n, (DocumentParser.chunkText text cs ov pages).map (·.chunkIndex) =
        List.range n := by
      match pages with
      | some ps =>
        simp only [DocumentParser.chunkText]
        split_ifs with hps
        · exact ⟨_, foldl_pageStep_inv cs ov ps ([], 0) rfl⟩
        · exact chunkTextNoPages_indexes text cs ov
      | none => exact chunkTextNoPages_indexes text cs ov
    obtain ⟨n, hn⟩ := hex
    exact map_range_of_inv _ n hn

/-- Appending one entry extends the per-filename score list by that entry's
score exactly when the filenames agree. -/
theorem scoresFor_append_singleton (fn : String) (seen : List ChatRoute.SourceItem)
    (y : ChatRoute.SourceItem) :
    ChatRoute.scoresFor fn (seen ++ [y]) =
      ChatRoute.scoresFor fn seen ++ (if y.filename == fn then [y.score] else []) := by
  simp only [ChatRoute.scoresFor, List.filter_append, List.map_append]
  congr 1
  by_cases h : y.filename == fn <;> simp [List.filter, h]

/-- A filename absent from a list contributes no scores. -/
theorem scoresFor_eq_nil (fn : String) (l : List ChatRoute.SourceItem)
    (h : fn ∉ l.map (·.filename)) : ChatRoute.scoresFor fn l = [] := by
  have hfil : (l.filter fun x => x.filename == fn) = [] := by
    rw [List.filter_eq_nil_iff]
    intro a ha
    simp only [beq_iff_eq]
    intro heq
    exact h (List.mem_map.mpr ⟨a, ha, heq⟩)
  simp only [ChatRoute.scoresFor, hfil, List.map_nil]

/-- One `uniqueSources` update preserves the fusion invariant. -/
theorem upsertSource_inv (seen acc : List ChatRoute.SourceItem) (y : ChatRoute.SourceItem)
    (h : ChatRoute.FuseInv seen acc) :
    ChatRoute.FuseInv (seen ++ [y]) (ChatRoute.upsertSource acc y) := by
  obtain ⟨hnd, hkeys, hmax⟩ := h
  unfold ChatRoute.upsertSource
  cases hfind : acc.find? (fun x => x.filename == y.filename) with
  | none =>
    have hnone : ∀ x ∈ acc, x.filename ≠ y.filename := by
      intro x hx
      have := List.find?_eq_none.mp hfind x hx
      simpa using this
    have hynotin : y.filename ∉ acc.map (·.filename) := by
      intro hmem
      obtain ⟨x, hx, hfx⟩ := List.mem_map.mp hmem
      exact hnone x hx hfx
    have hynotinseen : y.filename ∉ seen.map (·.filename) := fun hm => hynotin ((hkeys _).mpr hm)
    refine ⟨?_, ?_, ?_⟩
    · rw [List.map_append]
      simp only [List.nodup_append, List.map_cons, List.map_nil]
      exact ⟨hnd, List.nodup_singleton _, by
        intro a ha hb
        simp only [List.mem_singleton] at hb
        subst hb
        exact hynotin ha⟩
    · intro fn
      rw [List.map_append, List.map_append]
      simp only [List.mem_append]
      exact or_congr (hkeys fn) Iff.rfl
    · intro e he
      rcases List.mem_append.mp he with he' | he'
      · have hne : ¬ (y.filename == e.filename) = true := by
          simp only [beq_iff_eq]
          exact fun hh => hnone e he' hh.symm
        rw [scoresFor_append_singleton, if_neg hne, List.append_nil]
        exact hmax e he'
      · rw [List.mem_singleton] at he'
        subst he'
        rw [scoresFor_append_singleton, if_pos (by simp), scoresFor_eq_nil _ _ hynotinseen,
          List.nil_append]
        exact ⟨List.mem_singleton_self _, fun x hx => le_of_eq (List.mem_singleton.mp hx)⟩
  | some old =>
    have hold_mem : old ∈ acc := List.mem_of_find?_eq_some hfind
    have hold_fn : old.filename = y.filename := by
      have := List.find?_some hfind
      simpa using this
    have hyin : y.filename ∈ acc.map (·.filename) :=
      List.mem_map.mpr ⟨old, hold_mem, hold_fn⟩
    have hyinseen : y.filename ∈ seen.map (·.filename) := (hkeys _).mp hyin
    have huniq : ∀ e ∈ acc, e.filename = y.filename → e = old := fun e he hef =>
      List.inj_on_of_nodup_map hnd he hold_mem (by rw [hef, hold_fn])
    have hkeys' : ∀ fn, fn ∈ (seen ++ [y]).map (·.filename) ↔ fn ∈ seen.map (·.filename) := by
      intro fn
      rw [List.map_append]
      simp only [List.mem_append, List.map_cons, List.map_nil, List.mem_singleton]
      constructor
      · rintro (hh | hh)
        · exact hh
        · rw [hh]
          exact hyinseen
      · exact Or.inl
    dsimp only
    split_ifs with hlt
    · refine ⟨?_, ?_, ?_⟩
      · rw [List.map_map]
        have : ((fun x : ChatRoute.SourceItem => x.filename) ∘
            fun x => if x.filename == y.filename then y else x) = fun x => x.filename := by
          funext x
          simp only [Function.comp]
          split_ifs with hx
          · exact ((beq_iff_eq).mp hx).symm
          · rfl
        rw [this]
        exact hnd
      · intro fn
        rw [List.map_map]
        have : ((fun x : ChatRoute.SourceItem => x.filename) ∘
            fun x => if x.filename == y.filename then y else x) = fun x => x.filename := by
          funext x
          simp only [Function.comp]
          split_ifs with hx
          · exact ((beq_iff_eq).mp hx).symm
          · rfl
        rw [this, hkeys' fn]
        exact hkeys fn
      · intro e' he'
        obtain ⟨e, he, hge⟩ := List.mem_map.mp he'
        by_cases hef : e.filename = y.filename
        · have hgy : (if e.filename == y.filename then y else e) = y := by
            rw [if_pos (by simpa using hef)]
          rw [← hge, hgy]
          have heold : e = old := huniq e he hef
          rw [scoresFor_append_singleton, if_pos (by simp)]
          refine ⟨List.mem_append.mpr (Or.inr (List.mem_singleton_self _)), ?_⟩
          intro x hx
          rcases List.mem_append.mp hx with hx' | hx'
          · have h1 : x ≤ e.score := by
              have hx'' : x ∈ ChatRoute.scoresFor e.filename seen := by
                rw [hef]
                exact hx'
              exact (hmax e he).2 x hx''
            have h2 : e.score = old.score := by rw [heold]
            exact le_of_lt (lt_of_le_of_lt (h1.trans h2.le) hlt)
          · exact le_of_eq (List.mem_singleton.mp hx')
        · have hgee : (if e.filename == y.filename then y else e) = e := by
            rw [if_neg (by simpa using hef)]
          rw [← hge, hgee]
          rw [scoresFor_append_singleton,
            if_neg (by simp only [beq_iff_eq]; exact fun hh => hef hh.symm),
            List.append_nil]
          exact hmax e he
    · refine ⟨hnd, ?_, ?_⟩
      · intro fn
        rw [hkeys' fn]
        exact hkeys fn
      · intro e he
        by_cases hef : e.filename = y.filename
        · have heold : e = old := huniq e he hef
          rw [scoresFor_append_singleton, if_pos (by simpa using hef.symm)]
          refine ⟨List.mem_append.mpr (Or.inl (hmax e he).1), ?_⟩
          intro x hx
          rcases List.mem_append.mp hx with hx' | hx'
          · exact (hmax e he).2 x hx'
          · rw [List.mem_singleton.mp hx']
            have : y.score ≤ old.score := le_of_not_lt hlt
            rw [heold]
            exact this
        · rw [scoresFor_append_singleton,
            if_neg (by simp only [beq_iff_eq]; exact fun hh => hef hh.symm),
            List.append_nil]
          exact hmax e he

/-- The complete `uniqueSources` fold satisfies the fusion invariant. -/
theorem dedupeByFilename_inv (l : List ChatRoute.SourceItem) :
    ChatRoute.FuseInv l (ChatRoute.dedupeByFilename l) := by
  have main : ∀ (l' seen acc : List ChatRoute.SourceItem),
      ChatRoute.FuseInv seen acc →
      ChatRoute.FuseInv (seen ++ l') (l'.foldl ChatRoute.upsertSource acc) := by
    intro l'
    induction l' with
    | nil =>
      intro seen acc h
      simpa using h
    | cons y ys ih =>
      intro seen acc h
      have h1 := upsertSource_inv seen acc y h
      have h2 := ih (seen ++ [y]) _ h1
      simpa [List.append_assoc] using h2
  have h0 : ChatRoute.FuseInv [] [] := ⟨List.nodup_nil, by simp, by simp⟩
  simpa [ChatRoute.dedupeByFilename] using main l [] [] h0

/-- C3: in the fused sources of the `final` event, every filename occurring
among the reranked document entries or the boosted multimedia entries
appears exactly once, carrying the maximum of the competing scores for that
filename, and the whole output is sorted descending by fused score. -/
theorem claim_C3_fusion_dedup :
    ∀ (docs raw : List ChatRoute.SourceItem) (fn : String),
      List.Sorted ChatRoute.srcLe
        (ChatRoute.fuseSources docs (ChatRoute.boostMultimedia raw)) ∧
      (fn ∈ (docs ++ ChatRoute.boostMultimedia raw).map (·.filename) →
        (ChatRoute.fuseSources docs (ChatRoute.boostMultimedia raw)).countP
            (fun e => e.filename == fn) = 1 ∧
        ∀ e ∈ ChatRoute.fuseSources docs (ChatRoute.boostMultimedia raw),
          e.filename = fn →
            e.score ∈ ChatRoute.scoresFor fn (docs ++ ChatRoute.boostMultimedia raw) ∧
            ∀ x ∈ ChatRoute.scoresFor fn (docs ++ ChatRoute.boostMultimedia raw),
              x ≤ e.score) := by
  intro docs raw fn
  obtain ⟨hnd, hkeys, hmax⟩ := dedupeByFilename_inv (docs ++ ChatRoute.boostMultimedia raw)
  have hperm : List.Perm (ChatRoute.fuseSources docs (ChatRoute.boostMultimedia raw))
      (ChatRoute.dedupeByFilename (docs ++ ChatRoute.boostMultimedia raw)) :=
    List.perm_insertionSort _ _
  refine ⟨List.sorted_insertionSort _ _, fun hfn => ⟨?_, ?_⟩⟩
  · have h1 : ((ChatRoute.dedupeByFilename
        (docs ++ ChatRoute.boostMultimedia raw)).map (·.filename)).count fn =
        (ChatRoute.dedupeByFilename (docs ++ ChatRoute.boostMultimedia raw)).countP
          (fun e => e.filename == fn) := by
      show List.countP _ _ = _
      rw [List.countP_map]
      rfl
    rw [hperm.countP_eq, ← h1]
    exact List.count_eq_one_of_mem hnd ((hkeys fn).mpr hfn)
  · intro e he hef
    have he' : e ∈ ChatRoute.dedupeByFilename (docs ++ ChatRoute.boostMultimedia raw) :=
      hperm.mem_iff.mp he
    have := hmax e he'
    rw [hef] at this
    exact this

/-- C3 witness: the fusion theorem instantiated at a filename occurring once
in the document list and once in the boosted multimedia list. -/
theorem claim_C3_fusion_dedup_witness :
    ("a.pdf" ∈ (([⟨"a.pdf", 0.9⟩] : List ChatRoute.SourceItem) ++
        ChatRoute.boostMultimedia [⟨"a.pdf", 0.5⟩]).map (·.filename)) ∧
    (ChatRoute.fuseSources [⟨"a.pdf", 0.9⟩]
        (ChatRoute.boostMultimedia [⟨"a.pdf", 0.5⟩])).countP
      (fun e => e.filename == "a.pdf") = 1 :=
  ⟨by simp [ChatRoute.boostMultimedia],
    ((claim_C3_fusion_dedup [⟨"a.pdf", 0.9⟩] [⟨"a.pdf", 0.5⟩] "a.pdf").2
      (by simp [ChatRoute.boostMultimedia])).1⟩
